import Mathlib

/-!
Verification of the bulk CSV search/replace engine against its design
specification.

The development shallowly embeds the row-processing core of the engine:

* `buildFieldMatcher` and `rowMatchesAdvanced` embed the field matcher and
  the advanced row predicate evaluator of the process route;
* `buildSearchPattern`, `buildSearchFlags`, `escapeRegex`, `scanSimpleRow`
  and `processSimpleRows` embed the simple-mode pattern compilation and the
  per-file row loop of the process route;
* `scanAdvancedRow` and `processAdvancedRows` embed the advanced-mode row
  loop of `processFilesWithAdvancedSearch`;
* `replayOps`, `replayRows` and `processReplayFile` embed the selective
  replay (replace) route;
* `finishBatch` embeds the end-of-batch download/zip bookkeeping common to
  the routes.

Regular-expression testing is an external collaborator of the embedded
code (the JavaScript `RegExp` engine); it is passed in as an explicit
function parameter (`test`, resp. `rt`), exactly as the routes receive a
compiled regex object. Rows are association lists from field names to cell
values, mirroring the record objects produced by the CSV parser.
-/

namespace BulkCsv

/-- A parsed CSV row: field name ↦ cell value, in column order. -/
abbrev Row := List (String × String)

/-- Cell access `row[field] ?? ''` (also `row[field] || ''` for string
cells, where only the empty string is falsy). -/
def rowGet (row : Row) (f : String) : String :=
  (row.lookup f).getD ""

/-- Assignment `row[field] = v` on a row object: updates the entry when the
key is present, appends it otherwise. -/
def rowSet (row : Row) (f v : String) : Row :=
  if row.any (fun p => p.1 == f) then
    row.map (fun p => if p.1 = f then (p.1, v) else p)
  else
    row ++ [(f, v)]

/-- JavaScript truthiness of an optional string: defined and non-empty. -/
def jsTruthy (o : Option String) : Bool :=
  o.getD "" != ""

/-- Substring test on char lists (needle occurs inside hay). -/
def charsContain (needle : List Char) : List Char → Bool
  | [] => needle.isEmpty
  | c :: rest => needle.isPrefixOf (c :: rest) || charsContain needle rest

/-- JavaScript `hay.includes(needle)`. -/
def strContains (hay needle : String) : Bool :=
  charsContain needle.toList hay.toList

/-- JavaScript `hay.startsWith(needle)`. -/
def strStartsWith (hay needle : String) : Bool :=
  needle.toList.isPrefixOf hay.toList

/-- JavaScript `hay.endsWith(needle)`. -/
def strEndsWith (hay needle : String) : Bool :=
  needle.toList.reverse.isPrefixOf hay.toList.reverse

/-- JavaScript `s.toLowerCase()` (modelled per character). -/
def jsToLower (s : String) : String :=
  String.mk (s.toList.map Char.toLower)

/-- JavaScript `s.trim()`: strip whitespace from both ends. -/
def jsTrim (s : String) : String :=
  String.mk
    (((s.toList.dropWhile Char.isWhitespace).reverse.dropWhile
      Char.isWhitespace).reverse)

/-- Loop of `dedupFirst`, carrying the set of names already seen. -/
def dedupFirstLoop : List String → List String → List String
  | [], _ => []
  | h :: t, seen =>
    if seen.contains h then dedupFirstLoop t seen
    else h :: dedupFirstLoop t (h :: seen)

/-- `Array.from(new Set(xs))`: deduplication keeping the first occurrence. -/
def dedupFirst (l : List String) : List String :=
  dedupFirstLoop l []

/-- Header extraction of the routes: keys of the first row, trimmed,
blank keys dropped, deduplicated keeping the first occurrence. -/
def headersOf (rows : List Row) : List String :=
  dedupFirst (((rows.headD []).map Prod.fst).map jsTrim
    |>.filter (fun h => h != ""))

/-- One field-level search condition of the advanced search config. -/
inductive MatchMode
  | contains
  | equals
  | regex
  | startsWith
  | endsWith
deriving DecidableEq

structure FieldSearchCondition where
  field : String
  value : String
  mode : MatchMode
deriving DecidableEq

inductive AdvancedLogic
  | AND
  | OR
deriving DecidableEq

structure AdvancedSearchConfig where
  conditions : List FieldSearchCondition
  logic : Option AdvancedLogic
  caseSensitive : Option Bool
deriving DecidableEq

/-- A regex collaborator: pattern, case-insensitive flag, input ↦ matched? -/
abbrev RegexTest := String → Bool → String → Bool

/-- Embeds `buildFieldMatcher` of the process route. For `regex` mode the
external regex engine `rt` is consulted with the case-insensitive flag set
exactly when the evaluation is not case sensitive; for the other modes
needle and haystack are lowered when not case sensitive and compared with
the corresponding string relation. -/
def buildFieldMatcher (rt : RegexTest) (cond : FieldSearchCondition)
    (globalCaseSensitive : Bool) : String → Bool :=
  let caseSensitive := globalCaseSensitive
  match cond.mode with
  | .regex => fun raw => rt cond.value (!caseSensitive) raw
  | mode =>
    let needle := if caseSensitive then cond.value else jsToLower cond.value
    fun raw =>
      let hay := if caseSensitive then raw else jsToLower raw
      match mode with
      | .equals => hay == needle
      | .startsWith => strStartsWith hay needle
      | .endsWith => strEndsWith hay needle
      | _ => strContains hay needle

/-- AND loop of `rowMatchesAdvanced`: early exit with `(false, [])` on a
missing field or a failed matcher, otherwise the matched fields accumulate
in order. -/
def advAnd (rt : RegexTest) (cs : Bool) (row : Row) (headers : List String) :
    List FieldSearchCondition → List String → Bool × List String
  | [], acc => (true, acc)
  | c :: rest, acc =>
    if headers.contains c.field then
      if buildFieldMatcher rt c cs (rowGet row c.field) then
        advAnd rt cs row headers rest (acc ++ [c.field])
      else (false, [])
    else (false, [])

/-- OR loop of `rowMatchesAdvanced`: conditions on missing fields are
skipped, matching conditions set the `any` flag and record their field. -/
def advOr (rt : RegexTest) (cs : Bool) (row : Row) (headers : List String) :
    List FieldSearchCondition → List String → Bool → Bool × List String
  | [], acc, any => (any, if any then acc else [])
  | c :: rest, acc, any =>
    if headers.contains c.field then
      if buildFieldMatcher rt c cs (rowGet row c.field) then
        advOr rt cs row headers rest (acc ++ [c.field]) true
      else advOr rt cs row headers rest acc any
    else advOr rt cs row headers rest acc any

/-- Embeds `rowMatchesAdvanced` of the process route. -/
def rowMatchesAdvanced (rt : RegexTest) (row : Row) (headers : List String)
    (advanced : AdvancedSearchConfig) : Bool × List String :=
  let logic := advanced.logic.getD .AND
  let caseSensitive := advanced.caseSensitive.getD false
  let activeConds := advanced.conditions.filter
    (fun c => c.value != "" && jsTrim c.value != "")
  if activeConds.isEmpty then (true, [])
  else
    match logic with
    | .AND => advAnd rt caseSensitive row headers activeConds []
    | .OR => advOr rt caseSensitive row headers activeConds [] false

/-- An active condition passes on a row when its field is a known header
and its field matcher accepts the row's cell value. -/
def condPasses (rt : RegexTest) (cs : Bool) (headers : List String) (row : Row)
    (c : FieldSearchCondition) : Bool :=
  headers.contains c.field && buildFieldMatcher rt c cs (rowGet row c.field)

/-- Reference definition of the advanced row predicate, written from the
specification's words (blank-valued conditions excluded; empty active set
matches vacuously with no matched fields; AND requires every active
condition's field to exist and match, a missing field failing the whole
row; OR skips conditions on missing fields and matches when any remaining
condition matches, listing exactly the contributing fields). To be
compared with the translated `rowMatchesAdvanced`. -/
def rowMatchesAdvancedRef (rt : RegexTest) (row : Row) (headers : List String)
    (advanced : AdvancedSearchConfig) : Bool × List String :=
  let cs := advanced.caseSensitive.getD false
  let active := advanced.conditions.filter
    (fun c => c.value != "" && jsTrim c.value != "")
  if active.isEmpty then (true, [])
  else
    match advanced.logic.getD .AND with
    | .AND =>
      if active.all (condPasses rt cs headers row) then
        (true, active.map (fun c => c.field))
      else (false, [])
    | .OR =>
      let contributing := (active.filter (condPasses rt cs headers row)).map
        (fun c => c.field)
      (!contributing.isEmpty, contributing)

/-! ### Simple mode: pattern compilation and the per-file row loop -/

/-- The regex special characters escaped by the simple-mode search
(`. * + ? ^ $ open-brace close-brace ( ) | [ ] backslash`). -/
def regexSpecialChars : List Char :=
  ['.', '*', '+', '?', '^', '$', Char.ofNat 123, Char.ofNat 125,
   '(', ')', '|', '[', ']', '\\']

/-- Embeds `searchTerm.replace(/[special]/g, backslash-match)`. -/
def escapeRegex (s : String) : String :=
  String.mk (s.toList.foldr
    (fun c acc => if c ∈ regexSpecialChars then '\\' :: c :: acc else c :: acc)
    [])

/-- Embeds the simple-mode search pattern construction: a user-supplied
regex is used as is (wrapped in grouped word boundaries when whole-word is
requested), a literal term is escaped first. -/
def buildSearchPattern (useRegex wholeWord : Bool) (searchTerm : String) : String :=
  if useRegex then
    if wholeWord then "\\b(" ++ searchTerm ++ ")\\b" else searchTerm
  else
    let escaped := escapeRegex searchTerm
    if wholeWord then "\\b" ++ escaped ++ "\\b" else escaped

/-- Embeds the simple-mode flag selection `caseSensitive ? 'g' : 'gi'`. -/
def buildSearchFlags (caseSensitive : Bool) : String :=
  if caseSensitive then "g" else "gi"

/-- The row-level search text: every search field's cell value joined by a
single space, in field order. -/
def rowTextOf (searchFields : List String) (row : Row) : String :=
  String.intercalate " " (searchFields.map (fun f => rowGet row f))

/-- One applied or observed change of a single field of a row. -/
structure RowChange where
  field : String
  oldValue : String
  newValue : String
deriving DecidableEq

/-- Result of scanning one row. -/
structure RowScan where
  matched : Bool
  outRow : Row
  records : List RowChange
  repCount : Nat
deriving DecidableEq

/-- The simple-mode replace loop over the selected replace fields: each
field is overwritten with the replacement term exactly when the current
value differs, and only then a change record is emitted and counted. -/
def replaceLoop (replaceTerm : String) : List String → Row → Row × List RowChange
  | [], row => (row, [])
  | f :: rest, row =>
    let oldValue := rowGet row f
    if replaceTerm != oldValue then
      let r := replaceLoop replaceTerm rest (rowSet row f replaceTerm)
      (r.1, ⟨f, oldValue, replaceTerm⟩ :: r.2)
    else replaceLoop replaceTerm rest row

/-- Embeds the body of the simple-mode row loop of the process route:
build the row-level text from all search fields, test the compiled pattern
once; on a match either record the matching fields (search-only mode) or
overwrite the replace fields (replace mode). -/
def scanSimpleRow (test : String → Bool) (searchFields replaceFields : List String)
    (isReplaceMode : Bool) (replaceTerm : String) (row : Row) : RowScan :=
  let rowText := rowTextOf searchFields row
  let rowMatched := test rowText
  if !rowMatched then ⟨false, row, [], 0⟩
  else if !isReplaceMode then
    ⟨true, row,
      searchFields.filterMap (fun f =>
        let value := rowGet row f
        if test value then some ⟨f, value, value⟩ else none),
      0⟩
  else
    let r := replaceLoop replaceTerm replaceFields row
    ⟨true, r.1, r.2, r.2.length⟩

/-- Embeds the simple-mode per-file row loop: matched rows are always
retained (carrying their replacements), unmatched rows are retained only
when the only-matching-rows filter is off; matches and replacements are
counted. Returns (processed rows, file matches, file replacements). -/
def processSimpleRows (test : String → Bool) (searchFields replaceFields : List String)
    (showOnlyMatches isReplaceMode : Bool) (replaceTerm : String) :
    List Row → List Row × Nat × Nat
  | [] => ([], 0, 0)
  | row :: rest =>
    let s := scanSimpleRow test searchFields replaceFields isReplaceMode replaceTerm row
    let r := processSimpleRows test searchFields replaceFields showOnlyMatches
      isReplaceMode replaceTerm rest
    if s.matched then (s.outRow :: r.1, r.2.1 + 1, s.repCount + r.2.2)
    else ((if showOnlyMatches then r.1 else row :: r.1), r.2.1, r.2.2)

/-- Embeds the simple-mode replace-mode test
`replaceTerm !== undefined && replaceTerm !== ''`. -/
def simpleIsReplaceMode (replaceTerm : Option String) : Bool :=
  match replaceTerm with
  | none => false
  | some s => s != ""

/-- Per-file outcome of the simple/advanced pipelines. `artifact` records
whether a replaced file was serialized and persisted (`newPath` non-null);
`processedInc` is the increment applied to `stats.processedFiles`. -/
structure FileResult where
  processedRows : List Row
  fileMatches : Nat
  fileReplacements : Nat
  artifact : Bool
  processedInc : Nat
deriving DecidableEq

/-- Embeds one file of the simple-mode pipeline (after parsing): headers
are the deduplicated trimmed keys of the first row, replace fields are the
selected fields restricted to the headers (or all headers on `All`/empty),
the search fields are all headers; output is generated exactly in replace
mode, and every scanned file counts as processed. -/
def processSimpleFile (test : String → Bool) (selectedFields : List String)
    (showOnlyMatches : Bool) (replaceTerm : Option String) (rows : List Row) :
    FileResult :=
  let headers := headersOf rows
  let replaceFields :=
    if selectedFields.contains "All" || selectedFields.isEmpty then headers
    else selectedFields.filter (fun f => headers.contains f)
  let searchFields := headers
  let irm := simpleIsReplaceMode replaceTerm
  let r := processSimpleRows test searchFields replaceFields showOnlyMatches irm
    (replaceTerm.getD "") rows
  ⟨r.1, r.2.1, r.2.2, irm, 1⟩

/-! ### Advanced mode: targeted replacement and the per-file row loop -/

/-- Embeds the advanced-mode replace-mode test
`!!(replaceTargetField && replaceValue !== undefined)`. -/
def advancedIsReplaceMode (replaceTargetField replaceValue : Option String) : Bool :=
  jsTruthy replaceTargetField && replaceValue.isSome

/-- Embeds the body of the advanced-mode row loop of
`processFilesWithAdvancedSearch`: evaluate the advanced row predicate; on a
match, in replace mode with the target field among the headers overwrite
the target exactly when the value differs (counting it), otherwise emit an
attribution record (old = new) per matched field. -/
def scanAdvancedRow (rt : RegexTest) (advanced : AdvancedSearchConfig)
    (replaceTargetField replaceValue : Option String) (headers : List String)
    (row : Row) : RowScan :=
  let res := rowMatchesAdvanced rt row headers advanced
  if !res.1 then ⟨false, row, [], 0⟩
  else
    let isReplaceMode := advancedIsReplaceMode replaceTargetField replaceValue
    let tgt := replaceTargetField.getD ""
    if isReplaceMode && jsTruthy replaceTargetField && headers.contains tgt then
      let oldValue := rowGet row tgt
      let newValue := replaceValue.getD ""
      if newValue != oldValue then
        ⟨true, rowSet row tgt newValue, [⟨tgt, oldValue, newValue⟩], 1⟩
      else ⟨true, row, [], 0⟩
    else
      ⟨true, row, res.2.map (fun f => ⟨f, rowGet row f, rowGet row f⟩), 0⟩

/-- Embeds the advanced-mode per-file row loop: an unmatched row is
retained only when the only-matching-rows filter is off; a matched row is
retained when the filter is off or the row produced at least one change or
attribution record. Returns (processed rows, file matches, file
replacements). -/
def processAdvancedRows (rt : RegexTest) (advanced : AdvancedSearchConfig)
    (replaceTargetField replaceValue : Option String) (showOnlyMatches : Bool)
    (headers : List String) : List Row → List Row × Nat × Nat
  | [] => ([], 0, 0)
  | row :: rest =>
    let s := scanAdvancedRow rt advanced replaceTargetField replaceValue headers row
    let r := processAdvancedRows rt advanced replaceTargetField replaceValue
      showOnlyMatches headers rest
    if !s.matched then ((if showOnlyMatches then r.1 else row :: r.1), r.2.1, r.2.2)
    else
      ((if !showOnlyMatches || !s.records.isEmpty then s.outRow :: r.1 else r.1),
       r.2.1 + 1, s.repCount + r.2.2)

/-- Embeds one file of the advanced-mode pipeline (after parsing): output
is serialized and persisted exactly in replace mode, and every scanned
file counts as processed. -/
def processAdvancedFile (rt : RegexTest) (advanced : AdvancedSearchConfig)
    (replaceTargetField replaceValue : Option String) (showOnlyMatches : Bool)
    (rows : List Row) : FileResult :=
  let headers := headersOf rows
  let isReplaceMode := advancedIsReplaceMode replaceTargetField replaceValue
  let r := processAdvancedRows rt advanced replaceTargetField replaceValue
    showOnlyMatches headers rows
  ⟨r.1, r.2.1, r.2.2, isReplaceMode, 1⟩

/-! ### Selective replay (replace route) -/

structure ReplaceOperation where
  field : String
  value : String
deriving DecidableEq

structure SearchResultRow where
  rowIndex : Int
  fields : List (String × String)
deriving DecidableEq

/-- Embeds the replay per-row operation loop: every operation whose field
is among the headers is applied in order; a field is overwritten with the
operation's value exactly when the current value differs, and only then a
change record is emitted. -/
def replayOps (headers : List String) : List ReplaceOperation → Row → Row × List RowChange
  | [], row => (row, [])
  | op :: rest, row =>
    if headers.contains op.field then
      let oldValue := rowGet row op.field
      if oldValue != op.value then
        let r := replayOps headers rest (rowSet row op.field op.value)
        (r.1, ⟨op.field, oldValue, op.value⟩ :: r.2)
      else replayOps headers rest row
    else replayOps headers rest row

/-- Embeds the replay row loop (starting at 0-based offset `i`): a row
whose offset is in the caller-supplied index set is rewritten by the
operations, every other row is passed through unchanged; every row is
retained. Returns (processed rows, file replacements). -/
def replayRows (headers : List String) (ops : List ReplaceOperation)
    (idxs : List Int) : Nat → List Row → List Row × Nat
  | _, [] => ([], 0)
  | i, row :: rest =>
    let tail := replayRows headers ops idxs (i + 1) rest
    if idxs.contains (i : Int) then
      let r := replayOps headers ops row
      (r.1 :: tail.1, r.2.length + tail.2)
    else (row :: tail.1, tail.2)

/-- The 0-based offsets to mutate: `rowIndex - 1` for every row retained in
the caller-supplied search result. -/
def rowIdxSet (searchRows : List SearchResultRow) : List Int :=
  searchRows.map (fun r => r.rowIndex - 1)

/-- Successful per-file outcome of the replay route. An output artifact is
persisted, and the file counted as processed, exactly when at least one
replacement changed a value. -/
structure ReplayOk where
  out : List Row
  reps : Nat
  artifact : Bool
  processedInc : Nat
deriving DecidableEq

/-- Embeds one file of the replay (selective replace) route, after
parsing: operations naming a field absent from the headers abort the file
with an error listing the missing fields before any row is touched;
otherwise exactly the rows at offsets `rowIndex - 1` are rewritten, and
the file produces an artifact and counts as processed only when some
replacement changed a value. -/
def processReplayFile (ops : List ReplaceOperation)
    (searchRows : List SearchResultRow) (rows : List Row) :
    Except (List String) ReplayOk :=
  let headers := headersOf rows
  let invalidFields := (ops.map (fun op => op.field)).filter
    (fun f => !headers.contains f)
  if invalidFields.isEmpty then
    let r := replayRows headers ops (rowIdxSet searchRows) 0 rows
    .ok ⟨r.1, r.2, decide (0 < r.2), if 0 < r.2 then 1 else 0⟩
  else
    .error invalidFields

/-! ### End-of-batch download bookkeeping -/

structure OutputFileRecord where
  originalPath : String
  newPath : Option String
deriving DecidableEq

/-- `path.basename` on forward-slash paths: the suffix after the last
slash. -/
def basename (s : String) : String :=
  String.mk ((s.toList.reverse.takeWhile (fun c => c != '/')).reverse)

/-- The per-batch output records that produced an output artifact. -/
def filesWithOutput (outputFiles : List OutputFileRecord) : List OutputFileRecord :=
  outputFiles.filter (fun f => jsTruthy f.newPath)

/-- The named entries handed to the archive collaborator: the basename of
every produced artifact, in order. -/
def zipEntryNames (outputFiles : List OutputFileRecord) : List String :=
  (filesWithOutput outputFiles).map (fun f => basename (f.newPath.getD ""))

/-- Embeds the end-of-batch download bookkeeping shared by the routes:
with more than one artifact the produced artifacts are bundled (the
archive collaborator `zip` receives exactly their named entries; its
failure degrades to no download), with exactly one artifact its own
locator is the download, otherwise there is no download. Returns
(downloadUrl, isZip, entries handed to the bundler). -/
def finishBatch (outputFiles : List OutputFileRecord)
    (zip : List String → Option String) (mkUrl : String → String) :
    Option String × Bool × Option (List String) :=
  let fwo := filesWithOutput outputFiles
  if fwo.length > 1 then
    match zip (zipEntryNames outputFiles) with
    | some zipPath => (some (mkUrl zipPath), true, some (zipEntryNames outputFiles))
    | none => (none, false, some (zipEntryNames outputFiles))
  else if fwo.length == 1 then
    ((fwo.headD ⟨"", none⟩).newPath, false, none)
  else (none, false, none)

/-! ### Basic lemmas about row access and update -/

theorem lookup_mapUpdate_same (f v : String) (row : Row) :
    (row.map (fun p => if p.1 = f then (p.1, v) else p)).lookup f
      = (row.lookup f).map (fun _ => v) := by
  induction row with
  | nil => rfl
  | cons p rest ih =>
    obtain ⟨k, w⟩ := p
    by_cases hk : k = f
    · simp [List.lookup_cons, hk, beq_iff_eq]
    · simp [List.lookup_cons, hk, beq_false_of_ne (Ne.symm hk), ih]

theorem lookup_mapUpdate_ne (f v g : String) (hg : g ≠ f) (row : Row) :
    (row.map (fun p => if p.1 = f then (p.1, v) else p)).lookup g
      = row.lookup g := by
  induction row with
  | nil => rfl
  | cons p rest ih =>
    obtain ⟨k, w⟩ := p
    by_cases hk : k = f
    · simp [List.lookup_cons, hk, beq_false_of_ne hg, ih]
    · by_cases hgk : g = k
      · simp [List.lookup_cons, hk, beq_iff_eq, hgk]
      · simp [List.lookup_cons, hk, beq_false_of_ne hgk, ih]

theorem lookup_append (a : String) (l1 l2 : Row) :
    (l1 ++ l2).lookup a
      = (match l1.lookup a with
         | some w => some w
         | none => l2.lookup a) := by
  induction l1 with
  | nil => rfl
  | cons p rest ih =>
    obtain ⟨k, w⟩ := p
    by_cases hk : a = k
    · simp [List.lookup_cons, hk, beq_iff_eq]
    · simp [List.lookup_cons, beq_false_of_ne hk, ih]

theorem lookup_none_of_any_false (f : String) (row : Row)
    (h : row.any (fun p => p.1 == f) = false) : row.lookup f = none := by
  induction row with
  | nil => rfl
  | cons p rest ih =>
    obtain ⟨k, w⟩ := p
    simp only [List.any_cons, Bool.or_eq_false_iff] at h
    have hk : ¬ (k = f) := by simpa using h.1
    simp [List.lookup_cons, beq_false_of_ne (Ne.symm hk), ih h.2]

theorem lookup_isSome_of_any_true (f : String) (row : Row)
    (h : row.any (fun p => p.1 == f) = true) : (row.lookup f).isSome := by
  induction row with
  | nil => simp at h
  | cons p rest ih =>
    obtain ⟨k, w⟩ := p
    simp only [List.any_cons, Bool.or_eq_true] at h
    by_cases hk : k = f
    · simp [List.lookup_cons, hk, beq_iff_eq]
    · have hr : rest.any (fun p => p.1 == f) = true := by
        rcases h with h | h
        · exact absurd (by simpa using h) hk
        · exact h
      simp [List.lookup_cons, beq_false_of_ne (Ne.symm hk), ih hr]

theorem rowGet_rowSet_self (row : Row) (f v : String) :
    rowGet (rowSet row f v) f = v := by
  unfold rowGet rowSet
  by_cases h : row.any (fun p => p.1 == f)
  · rw [if_pos h, lookup_mapUpdate_same]
    rcases Option.isSome_iff_exists.mp (lookup_isSome_of_any_true f row h)
      with ⟨w, hw⟩
    simp [hw]
  · have h' : row.any (fun p => p.1 == f) = false := by
      simp only [Bool.not_eq_true] at h
      exact h
    rw [if_neg h, lookup_append, lookup_none_of_any_false f row h']
    simp [List.lookup_cons]

theorem rowGet_rowSet_ne (row : Row) (f v g : String) (hg : g ≠ f) :
    rowGet (rowSet row f v) g = rowGet row g := by
  unfold rowGet rowSet
  by_cases h : row.any (fun p => p.1 == f)
  · rw [if_pos h, lookup_mapUpdate_ne f v g hg]
  · rw [if_neg h, lookup_append]
    have hnone : (([(f, v)] : Row).lookup g) = none := by
      simp [List.lookup_cons, beq_false_of_ne hg]
    cases hrow : row.lookup g <;> simp [hrow, hnone]

/-! ### Characterizations of the advanced predicate loops -/

theorem advAnd_eq (rt : RegexTest) (cs : Bool) (row : Row) (headers : List String) :
    ∀ (conds : List FieldSearchCondition) (acc : List String),
      advAnd rt cs row headers conds acc =
        (if conds.all (condPasses rt cs headers row) then
          (true, acc ++ conds.map (fun c => c.field))
         else (false, []))
  | [], acc => by simp [advAnd]
  | c :: rest, acc => by
    by_cases h1 : c.field ∈ headers
    · by_cases h2 : buildFieldMatcher rt c cs (rowGet row c.field) = true
      · by_cases h3 : rest.all (condPasses rt cs headers row) = true
        · simp [advAnd, condPasses, h1, h2, h3,
            advAnd_eq rt cs row headers rest (acc ++ [c.field]),
            List.append_assoc]
        · simp [advAnd, condPasses, h1, h2, h3,
            advAnd_eq rt cs row headers rest (acc ++ [c.field])]
      · simp [advAnd, condPasses, h1, h2]
    · simp [advAnd, condPasses, h1]

theorem advOr_eq (rt : RegexTest) (cs : Bool) (row : Row) (headers : List String) :
    ∀ (conds : List FieldSearchCondition) (acc : List String) (any : Bool),
      advOr rt cs row headers conds acc any =
        ((any || !((conds.filter (condPasses rt cs headers row)).map
            (fun c => c.field)).isEmpty),
         if any || !((conds.filter (condPasses rt cs headers row)).map
            (fun c => c.field)).isEmpty
         then acc ++ (conds.filter (condPasses rt cs headers row)).map
            (fun c => c.field)
         else [])
  | [], acc, any => by cases any <;> simp [advOr]
  | c :: rest, acc, any => by
    by_cases h1 : c.field ∈ headers
    · by_cases h2 : buildFieldMatcher rt c cs (rowGet row c.field) = true
      · simp [advOr, condPasses, h1, h2,
          advOr_eq rt cs row headers rest (acc ++ [c.field]) true,
          List.filter_cons, List.append_assoc]
      · simp [advOr, condPasses, h1, h2,
          advOr_eq rt cs row headers rest acc any, List.filter_cons]
    · simp [advOr, condPasses, h1,
        advOr_eq rt cs row headers rest acc any, List.filter_cons]

theorem scanSimpleRow_matched (test : String → Bool)
    (searchFields replaceFields : List String) (isReplaceMode : Bool)
    (replaceTerm : String) (row : Row) :
    (scanSimpleRow test searchFields replaceFields isReplaceMode replaceTerm
        row).matched
      = test (rowTextOf searchFields row) := by
  unfold scanSimpleRow
  cases h : test (rowTextOf searchFields row) <;> cases isReplaceMode <;> simp [h]

theorem escapeChars_eq_flatMap :
    ∀ l : List Char,
      l.foldr (fun c acc => if c ∈ regexSpecialChars then '\\' :: c :: acc
        else c :: acc) []
      = l.flatMap (fun c => if c ∈ regexSpecialChars then ['\\', c] else [c])
  | [] => rfl
  | c :: rest => by
    by_cases hc : c ∈ regexSpecialChars <;>
      simp [hc, escapeChars_eq_flatMap rest]

theorem escapeRegex_toList (term : String) :
    (escapeRegex term).toList
      = term.toList.flatMap
          (fun c => if c ∈ regexSpecialChars then ['\\', c] else [c]) :=
  escapeChars_eq_flatMap term.toList

/-- C1: in simple mode a row is declared a match exactly when the compiled
search pattern — the user's term with regex special characters escaped
when `useRegex` is false, wrapped in word boundaries when `wholeWord` is
true, and carrying the case-insensitive flag exactly when `caseSensitive`
is false — accepts the single string formed by joining every search
field's cell value with a single space, in field order, tested once per
row (the search fields being all headers in the file pipeline). -/
theorem c1_simple_row_predicate (test : String → Bool)
    (headers replaceFields : List String) (isReplaceMode : Bool)
    (replaceTerm : String) (row : Row) (caseSensitive wholeWord : Bool)
    (term : String) :
    ((scanSimpleRow test headers replaceFields isReplaceMode replaceTerm
        row).matched
      = test (rowTextOf headers row))
    ∧ ('i' ∈ (buildSearchFlags caseSensitive).toList ↔ caseSensitive = false)
    ∧ (buildSearchPattern false wholeWord term
        = (if wholeWord then "\\b" ++ escapeRegex term ++ "\\b"
           else escapeRegex term))
    ∧ (buildSearchPattern true wholeWord term
        = (if wholeWord then "\\b(" ++ term ++ ")\\b" else term))
    ∧ ((escapeRegex term).toList
        = term.toList.flatMap
            (fun c => if c ∈ regexSpecialChars then ['\\', c] else [c])) := by
  refine ⟨scanSimpleRow_matched test headers replaceFields isReplaceMode
    replaceTerm row, ?_, rfl, rfl, escapeRegex_toList term⟩
  cases caseSensitive <;> simp [buildSearchFlags]

/-- C2: the advanced row predicate evaluator agrees with the reference
definition written from the specification: blank-valued conditions are
excluded; an empty active set matches every row with no matched fields;
under AND the row matches exactly when every active condition's field is a
known header and its matcher accepts the cell value, a missing field
failing the whole row with no matched fields; under OR conditions on
missing fields are skipped, the row matches when any remaining condition
matches, and the matched fields are exactly those of the contributing
conditions. -/
theorem c2_advanced_predicate_reference (rt : RegexTest) (row : Row)
    (headers : List String) (advanced : AdvancedSearchConfig) :
    rowMatchesAdvanced rt row headers advanced
      = rowMatchesAdvancedRef rt row headers advanced := by
  unfold rowMatchesAdvanced rowMatchesAdvancedRef
  by_cases he : (advanced.conditions.filter
      (fun c => c.value != "" && jsTrim c.value != "")).isEmpty = true
  · simp [he]
  · simp only [he, if_false, Bool.false_eq_true]
    cases hl : advanced.logic.getD .AND
    · rw [advAnd_eq]
      simp
    · rw [advOr_eq]
      by_cases hc : ((advanced.conditions.filter
            (fun c => c.value != "" && jsTrim c.value != "")).filter
          (condPasses rt (advanced.caseSensitive.getD false) headers
            row)).isEmpty = true
      · simp [List.isEmpty_iff.mp hc]
      · have : ¬ (((advanced.conditions.filter
            (fun c => c.value != "" && jsTrim c.value != "")).filter
            (condPasses rt (advanced.caseSensitive.getD false) headers
              row)).map (fun c => c.field)).isEmpty = true := by
          simp only [List.isEmpty_iff, List.map_eq_nil_iff]
          simpa [List.isEmpty_iff] using hc
        simp [this]

/-! ### Row retention (claim C5) -/

theorem scanSimpleRow_outRow_search (test : String → Bool)
    (searchFields replaceFields : List String) (replaceTerm : String) (row : Row) :
    (scanSimpleRow test searchFields replaceFields false replaceTerm row).outRow
      = row := by
  unfold scanSimpleRow
  cases h : test (rowTextOf searchFields row) <;> simp [h]

theorem processSimpleRows_som_true (test : String → Bool)
    (sf rf : List String) (irm : Bool) (rt : String) :
    ∀ rows : List Row,
      (processSimpleRows test sf rf true irm rt rows).1
        = (rows.filter (fun row => test (rowTextOf sf row))).map
            (fun row => (scanSimpleRow test sf rf irm rt row).outRow)
  | [] => rfl
  | row :: rest => by
    by_cases h : test (rowTextOf sf row) = true <;>
      simp [processSimpleRows, scanSimpleRow_matched, List.filter_cons, h,
        processSimpleRows_som_true test sf rf irm rt rest]

theorem processSimpleRows_som_false_length (test : String → Bool)
    (sf rf : List String) (irm : Bool) (rt : String) :
    ∀ rows : List Row,
      (processSimpleRows test sf rf false irm rt rows).1.length = rows.length
  | [] => rfl
  | row :: rest => by
    by_cases h : (scanSimpleRow test sf rf irm rt row).matched = true <;>
      simp [processSimpleRows, h,
        processSimpleRows_som_false_length test sf rf irm rt rest]

theorem processAdvancedRows_som_true (rtA : RegexTest)
    (cfg : AdvancedSearchConfig) (rtf rv : Option String) (headers : List String) :
    ∀ rows : List Row,
      (processAdvancedRows rtA cfg rtf rv true headers rows).1
        = (rows.filter (fun row =>
              (scanAdvancedRow rtA cfg rtf rv headers row).matched
                && !(scanAdvancedRow rtA cfg rtf rv headers row).records.isEmpty)).map
            (fun row => (scanAdvancedRow rtA cfg rtf rv headers row).outRow)
  | [] => rfl
  | row :: rest => by
    by_cases h1 : (scanAdvancedRow rtA cfg rtf rv headers row).matched = true
    · by_cases h2 :
        (scanAdvancedRow rtA cfg rtf rv headers row).records.isEmpty = true <;>
        simp [processAdvancedRows, List.filter_cons, h1, h2,
          processAdvancedRows_som_true rtA cfg rtf rv headers rest]
    · simp [processAdvancedRows, List.filter_cons, h1,
        processAdvancedRows_som_true rtA cfg rtf rv headers rest]

theorem processAdvancedRows_som_false_length (rtA : RegexTest)
    (cfg : AdvancedSearchConfig) (rtf rv : Option String) (headers : List String) :
    ∀ rows : List Row,
      (processAdvancedRows rtA cfg rtf rv false headers rows).1.length
        = rows.length
  | [] => rfl
  | row :: rest => by
    by_cases h : (scanAdvancedRow rtA cfg rtf rv headers row).matched = true <;>
      simp [processAdvancedRows, h,
        processAdvancedRows_som_false_length rtA cfg rtf rv headers rest]

/-- C5 (amended): in simple mode, with the only-matching-rows filter on,
the retained rows are exactly the rows that satisfied the row predicate
(carrying their replacements; literally the matched subset in search-only
mode); in advanced mode the retained rows are exactly the matched rows
that produced at least one change or attribution record; with the filter
off, the output row count equals the input row count in both modes. -/
theorem c5_output_row_retention (test : String → Bool) (sf rf : List String)
    (irm : Bool) (rt : String) (rows : List Row) (rtA : RegexTest)
    (cfg : AdvancedSearchConfig) (rtf rv : Option String)
    (headers : List String) :
    ((processSimpleRows test sf rf true irm rt rows).1
        = (rows.filter (fun row => test (rowTextOf sf row))).map
            (fun row => (scanSimpleRow test sf rf irm rt row).outRow))
    ∧ ((processSimpleRows test sf rf true false rt rows).1
        = rows.filter (fun row => test (rowTextOf sf row)))
    ∧ ((processSimpleRows test sf rf false irm rt rows).1.length = rows.length)
    ∧ ((processAdvancedRows rtA cfg rtf rv true headers rows).1
        = (rows.filter (fun row =>
              (scanAdvancedRow rtA cfg rtf rv headers row).matched
                && !(scanAdvancedRow rtA cfg rtf rv headers row).records.isEmpty)).map
            (fun row => (scanAdvancedRow rtA cfg rtf rv headers row).outRow))
    ∧ ((processAdvancedRows rtA cfg rtf rv false headers rows).1.length
        = rows.length) := by
  refine ⟨processSimpleRows_som_true test sf rf irm rt rows, ?_,
    processSimpleRows_som_false_length test sf rf irm rt rows,
    processAdvancedRows_som_true rtA cfg rtf rv headers rows,
    processAdvancedRows_som_false_length rtA cfg rtf rv headers rows⟩
  rw [processSimpleRows_som_true test sf rf false rt rows]
  rw [List.map_congr_left
    (fun row _ => scanSimpleRow_outRow_search test sf rf rt row)]
  exact List.map_id _

/-- A regex collaborator rejecting everything (no regex-mode condition is
involved where it is used). -/
def rtNone : RegexTest := fun _ _ _ => false

/-- An advanced configuration whose single condition has a blank value, so
the active condition set is empty and every row matches vacuously. -/
def blankCondConfig : AdvancedSearchConfig :=
  ⟨[⟨"a", "", .contains⟩], none, none⟩

/-- A one-cell row with field `a`. -/
def rowAx : Row := [("a", "x")]

/-- C5 counterexample: in advanced mode with `showOnlyMatches = true` and a
configuration with no active conditions (a staged blank condition), every
row satisfies the row predicate, yet the retained output row set is empty —
not the matched subset, contradicting the claim for the advanced path. -/
theorem c5_counterexample :
    (processAdvancedFile rtNone blankCondConfig none none true
        [rowAx]).processedRows = []
    ∧ (rowMatchesAdvanced rtNone rowAx (headersOf [rowAx])
        blankCondConfig).1 = true
    ∧ [rowAx].filter (fun row =>
        (rowMatchesAdvanced rtNone row (headersOf [rowAx])
          blankCondConfig).1) = [rowAx] := by
  exact ⟨by decide, by decide, by decide⟩

/-! ### Replace-mode gating (claim C6) -/

theorem scanAdvancedRow_outRow_noReplace (rtA : RegexTest)
    (cfg : AdvancedSearchConfig) (rtf rv : Option String)
    (headers : List String) (row : Row)
    (h : advancedIsReplaceMode rtf rv = false) :
    (scanAdvancedRow rtA cfg rtf rv headers row).outRow = row := by
  unfold scanAdvancedRow
  cases hm : (rowMatchesAdvanced rtA row headers cfg).1 <;> simp [h, hm]

theorem processSimpleRows_search_id (test : String → Bool)
    (sf rf : List String) (rt : String) :
    ∀ rows : List Row, (processSimpleRows test sf rf false false rt rows).1 = rows
  | [] => rfl
  | row :: rest => by
    by_cases h : (scanSimpleRow test sf rf false rt row).matched = true <;>
      simp [processSimpleRows, h, scanSimpleRow_outRow_search,
        processSimpleRows_search_id test sf rf rt rest]

theorem processAdvancedRows_search_id (rtA : RegexTest)
    (cfg : AdvancedSearchConfig) (rtf rv : Option String)
    (headers : List String) (h : advancedIsReplaceMode rtf rv = false) :
    ∀ rows : List Row,
      (processAdvancedRows rtA cfg rtf rv false headers rows).1 = rows
  | [] => rfl
  | row :: rest => by
    by_cases hm : (scanAdvancedRow rtA cfg rtf rv headers row).matched = true <;>
      simp [processAdvancedRows, hm,
        scanAdvancedRow_outRow_noReplace rtA cfg rtf rv headers row h,
        processAdvancedRows_search_id rtA cfg rtf rv headers h rest]

/-- C6 (amended): a simple-mode request is in replace mode exactly when
`replaceTerm` is defined AND non-empty (a supplied empty `replaceTerm`
keeps pure search mode); an advanced request is in replace mode exactly
when `replaceTargetField` is non-empty and `replaceValue` is defined. With
no replacement input the pipeline is pure search: the output rows are the
parsed rows unmodified and no artifact is produced (`newPath` null). -/
theorem c6_replace_mode_gating (s t v : String) (hs : s ≠ "") (ht : t ≠ "")
    (test : String → Bool) (sel : List String) (rows : List Row)
    (rt' : Option String) (h0 : simpleIsReplaceMode rt' = false)
    (rtA : RegexTest) (cfg : AdvancedSearchConfig) (rtf rv : Option String)
    (ha : advancedIsReplaceMode rtf rv = false) :
    simpleIsReplaceMode none = false
    ∧ simpleIsReplaceMode (some "") = false
    ∧ simpleIsReplaceMode (some s) = true
    ∧ advancedIsReplaceMode rtf none = false
    ∧ advancedIsReplaceMode none rv = false
    ∧ advancedIsReplaceMode (some t) (some v) = true
    ∧ (processSimpleFile test sel false rt' rows).artifact = false
    ∧ (processSimpleFile test sel false rt' rows).processedRows = rows
    ∧ (processAdvancedFile rtA cfg rtf rv false rows).artifact = false
    ∧ (processAdvancedFile rtA cfg rtf rv false rows).processedRows = rows := by
  refine ⟨rfl, rfl, ?_, ?_, rfl, ?_, ?_, ?_, ?_, ?_⟩
  · simp [simpleIsReplaceMode, hs]
  · simp [advancedIsReplaceMode]
  · simp [advancedIsReplaceMode, jsTruthy, ht]
  · simp [processSimpleFile, h0]
  · simp only [processSimpleFile, h0]
    exact processSimpleRows_search_id test (headersOf rows) _ (rt'.getD "") rows
  · simp [processAdvancedFile, ha]
  · simp only [processAdvancedFile, ha]
    exact processAdvancedRows_search_id rtA cfg rtf rv (headersOf rows) ha rows

/-- C6 witness: the gating theorem applied at concrete inputs. -/
theorem c6_witness :
    simpleIsReplaceMode (some "x") = true
    ∧ (processSimpleFile (fun _ => false) [] false none [rowAx]).artifact = false
    ∧ (processAdvancedFile rtNone blankCondConfig none none false
        [rowAx]).processedRows = [rowAx] := by
  have h := c6_replace_mode_gating "x" "f" "y" (by decide) (by decide)
    (fun _ => false) [] [rowAx] none rfl rtNone blankCondConfig none none rfl
  exact ⟨h.2.2.1, h.2.2.2.2.2.2.1, h.2.2.2.2.2.2.2.2.2⟩

/-- C6 counterexample: `replaceTerm` supplied as the empty string is a
non-undefined replacement value, yet the request is not in replace mode —
the claim's "exactly when a non-undefined replacement value is supplied"
fails for the simple path. -/
theorem c6_counterexample :
    simpleIsReplaceMode (some "") = false
    ∧ (some "" : Option String) ≠ none := by
  exact ⟨rfl, by simp⟩

/-! ### No-op writes are neither counted nor recorded (claim C7) -/

theorem replaceLoop_records (rt : String) :
    ∀ (fields : List String) (row : Row),
      ∀ c ∈ (replaceLoop rt fields row).2, c.newValue = rt ∧ c.oldValue ≠ rt
  | [], row => by simp [replaceLoop]
  | f :: rest, row => by
    intro c hc
    by_cases h : rt = rowGet row f
    · have hb : (rt != rowGet row f) = false := by simp [h]
      simp only [replaceLoop, hb, Bool.false_eq_true, if_false] at hc
      exact replaceLoop_records rt rest row c hc
    · have hb : (rt != rowGet row f) = true := by simp [h]
      simp only [replaceLoop, hb, if_true, List.mem_cons] at hc
      rcases hc with hc | hc
      · subst hc
        exact ⟨rfl, fun hEq => h hEq.symm⟩
      · exact replaceLoop_records rt rest (rowSet row f rt) c hc

theorem scanSimpleRow_repCount (test : String → Bool) (sf rf : List String)
    (rt : String) (row : Row) :
    (scanSimpleRow test sf rf true rt row).repCount
      = (scanSimpleRow test sf rf true rt row).records.length := by
  unfold scanSimpleRow
  cases h : test (rowTextOf sf row) <;> simp [h]

theorem replaceLoop_noop (rt : String) :
    ∀ (fields : List String) (row : Row),
      (∀ f ∈ fields, rowGet row f = rt) → replaceLoop rt fields row = (row, [])
  | [], row => fun _ => rfl
  | f :: rest, row => by
    intro h
    have hf : rowGet row f = rt := h f (List.mem_cons_self f rest)
    simp only [replaceLoop, hf, bne_self_eq_false, Bool.false_eq_true, if_false]
    exact replaceLoop_noop rt rest row
      (fun g hg => h g (List.mem_cons_of_mem f hg))

theorem scanAdvancedRow_replace_char (rtA : RegexTest)
    (cfg : AdvancedSearchConfig) (headers : List String) (row : Row)
    (t v : String) (ht : t ≠ "") (hh : t ∈ headers)
    (hm : (rowMatchesAdvanced rtA row headers cfg).1 = true) :
    scanAdvancedRow rtA cfg (some t) (some v) headers row
      = (if v != rowGet row t then
          ⟨true, rowSet row t v, [⟨t, rowGet row t, v⟩], 1⟩
         else ⟨true, row, [], 0⟩) := by
  unfold scanAdvancedRow
  simp [hm, advancedIsReplaceMode, jsTruthy, ht, hh]

theorem processAdvancedRows_scenarioB (rtA : RegexTest)
    (cfg : AdvancedSearchConfig) (t v : String) (som : Bool)
    (headers : List String) (ht : t ≠ "") (hh : t ∈ headers) :
    ∀ rows : List Row,
      (processAdvancedRows rtA cfg (some t) (some v) som headers rows).2.2
        = (rows.filter (fun row =>
            (rowMatchesAdvanced rtA row headers cfg).1
              && rowGet row t != v)).length
  | [] => rfl
  | row :: rest => by
    have ih := processAdvancedRows_scenarioB rtA cfg t v som headers ht hh rest
    by_cases hm : (rowMatchesAdvanced rtA row headers cfg).1 = true
    · rw [processAdvancedRows,
        scanAdvancedRow_replace_char rtA cfg headers row t v ht hh hm]
      by_cases hv : v = rowGet row t
      · have h1 : (v != rowGet row t) = false := by simp [hv]
        have h2 : (rowGet row t != v) = false := by
          rw [hv.symm]
          exact bne_self_eq_false v
        simp [h1, h2, List.filter_cons, hm, ih]
      · have h1 : (v != rowGet row t) = true := by simp [hv]
        have h2 : (rowGet row t != v) = true := by
          have : rowGet row t ≠ v := Ne.symm hv
          simp [this]
        simp [h1, h2, List.filter_cons, hm, ih]
        omega
    · rw [processAdvancedRows]
      unfold scanAdvancedRow
      simp [hm, List.filter_cons, ih]

theorem replayOps_records (headers : List String) :
    ∀ (ops : List ReplaceOperation) (row : Row),
      ∀ c ∈ (replayOps headers ops row).2,
        c.oldValue ≠ c.newValue
        ∧ ∃ op ∈ ops, c.field = op.field ∧ c.newValue = op.value
  | [], row => by simp [replayOps]
  | op :: rest, row => by
    intro c hc
    by_cases h1 : headers.contains op.field = true
    · by_cases h2 : rowGet row op.field = op.value
      · simp only [replayOps, h1, if_true, h2, bne_self_eq_false,
          Bool.false_eq_true, if_false] at hc
        obtain ⟨hne, op', hop', hf, hv⟩ := replayOps_records headers rest row c hc
        exact ⟨hne, op', List.mem_cons_of_mem op hop', hf, hv⟩
      · have hb : (rowGet row op.field != op.value) = true := by simp [h2]
        simp only [replayOps, h1, if_true, hb, List.mem_cons] at hc
        rcases hc with hc | hc
        · subst hc
          exact ⟨h2, op, List.mem_cons_self op rest, rfl, rfl⟩
        · obtain ⟨hne, op', hop', hf, hv⟩ :=
            replayOps_records headers rest (rowSet row op.field op.value) c hc
          exact ⟨hne, op', List.mem_cons_of_mem op hop', hf, hv⟩
    · simp only [replayOps, h1, Bool.false_eq_true, if_false] at hc
      obtain ⟨hne, op', hop', hf, hv⟩ := replayOps_records headers rest row c hc
      exact ⟨hne, op', List.mem_cons_of_mem op hop', hf, hv⟩

/-- C7: in every replace path a replacement is counted and a change record
emitted exactly for writes whose new value differs from the existing one:
simple-mode records all carry the replacement term and an old value
different from it, with the replacement count equal to the record count,
and an all-no-op row is left untouched with no records; in the advanced
targeted path the total replacement count equals the number of matched
rows whose original target value differed from the replacement (Scenario
B); replay records always have old ≠ new and stem from an operation. -/
theorem c7_noop_writes (test : String → Bool) (sf rf : List String)
    (rt : String) (row : Row) (rtA : RegexTest) (cfg : AdvancedSearchConfig)
    (t v : String) (som : Bool) (headers : List String) (rows : List Row)
    (ops : List ReplaceOperation) (opsRow : Row)
    (ht : t ≠ "") (hh : t ∈ headers) :
    (∀ c ∈ (scanSimpleRow test sf rf true rt row).records,
        c.newValue = rt ∧ c.oldValue ≠ rt)
    ∧ ((scanSimpleRow test sf rf true rt row).repCount
        = (scanSimpleRow test sf rf true rt row).records.length)
    ∧ ((∀ f ∈ rf, rowGet row f = rt) → replaceLoop rt rf row = (row, []))
    ∧ ((processAdvancedRows rtA cfg (some t) (some v) som headers rows).2.2
        = (rows.filter (fun r =>
            (rowMatchesAdvanced rtA r headers cfg).1
              && rowGet r t != v)).length)
    ∧ (∀ c ∈ (replayOps headers ops opsRow).2,
        c.oldValue ≠ c.newValue
        ∧ ∃ op ∈ ops, c.field = op.field ∧ c.newValue = op.value) := by
  refine ⟨?_, scanSimpleRow_repCount test sf rf rt row,
    replaceLoop_noop rt rf row,
    processAdvancedRows_scenarioB rtA cfg t v som headers ht hh rows,
    replayOps_records headers ops opsRow⟩
  intro c hc
  unfold scanSimpleRow at hc
  by_cases h : test (rowTextOf sf row) = true
  · simp only [h, Bool.not_true, Bool.false_eq_true, if_false,
      Bool.not_false, if_true] at hc
    exact replaceLoop_records rt rf row c hc
  · simp only [Bool.not_eq_true] at h
    simp [h] at hc

/-- The Scenario B configuration: one `equals` condition on `state`. -/
def cfgStateNY : AdvancedSearchConfig :=
  ⟨[⟨"state", "NY", .equals⟩], none, some true⟩

/-- Scenario B input rows. -/
def rowsB : List Row :=
  [[("state", "NY")], [("state", "New York")], [("state", "CA")]]

/-- C7 witness: the no-op-write theorem applied at a concrete Scenario B
instance (one matched row already equal to the replacement is not counted). -/
theorem c7_witness :
    ((processAdvancedRows rtNone cfgStateNY (some "state") (some "New York")
        false ["state"] rowsB).2.2
      = (rowsB.filter (fun r =>
          (rowMatchesAdvanced rtNone r ["state"] cfgStateNY).1
            && rowGet r "state" != "New York")).length)
    ∧ ((scanSimpleRow (fun _ => true) ["a"] ["a"] true "y" rowAx).repCount
        = (scanSimpleRow (fun _ => true) ["a"] ["a"] true "y" rowAx).records.length) := by
  have h := c7_noop_writes (fun _ => true) ["a"] ["a"] "y" rowAx rtNone
    cfgStateNY "state" "New York" false ["state"] rowsB [] []
    (by decide) (by decide)
  exact ⟨h.2.2.2.1, h.2.1⟩

/-! ### Selective replay frame property (claim C3) -/

theorem replayRows_length (headers : List String) (ops : List ReplaceOperation)
    (idxs : List Int) :
    ∀ (i : Nat) (rows : List Row),
      (replayRows headers ops idxs i rows).1.length = rows.length
  | _, [] => rfl
  | i, row :: rest => by
    by_cases h : (i : Int) ∈ idxs <;>
      simp [replayRows, h, replayRows_length headers ops idxs (i + 1) rest]

theorem replayRows_get (headers : List String) (ops : List ReplaceOperation)
    (idxs : List Int) :
    ∀ (i j : Nat) (rows : List Row),
      ((replayRows headers ops idxs i rows).1)[j]?
        = (rows[j]?).map (fun row =>
            if idxs.contains ((i + j : Nat) : Int) then
              (replayOps headers ops row).1
            else row)
  | i, j, [] => by simp [replayRows]
  | i, j, row :: rest => by
    cases j with
    | zero =>
      by_cases h : (i : Int) ∈ idxs <;>
        simp [replayRows, h]
    | succ j' =>
      have harith : i + 1 + j' = i + (j' + 1) := by omega
      have ih := replayRows_get headers ops idxs (i + 1) j' rest
      rw [harith] at ih
      by_cases h : (i : Int) ∈ idxs <;>
        simp [replayRows, h, ih]

theorem replayOps_preserves (headers : List String) :
    ∀ (ops : List ReplaceOperation) (row : Row) (g : String),
      g ∉ ops.map (fun op => op.field) →
      rowGet (replayOps headers ops row).1 g = rowGet row g
  | [], row, g => fun _ => rfl
  | op :: rest, row, g => by
    intro hg
    rw [List.map_cons, List.mem_cons] at hg
    push_neg at hg
    obtain ⟨hg1, hg2⟩ := hg
    by_cases h1 : headers.contains op.field = true
    · by_cases h2 : rowGet row op.field = op.value
      · have hb : (rowGet row op.field != op.value) = false := by simp [h2]
        simp only [replayOps, h1, if_true, hb, Bool.false_eq_true, if_false]
        exact replayOps_preserves headers rest row g hg2
      · have hb : (rowGet row op.field != op.value) = true := by simp [h2]
        simp only [replayOps, h1, if_true, hb]
        rw [replayOps_preserves headers rest (rowSet row op.field op.value) g hg2]
        exact rowGet_rowSet_ne row op.field op.value g hg1
    · simp only [replayOps, h1, Bool.false_eq_true, if_false]
      exact replayOps_preserves headers rest row g hg2

/-- C3: in the replay phase the rows eligible for modification are exactly
those whose 0-based offset is `rowIndex - 1` for some retained search-result
row (no row predicate is involved); rows outside that set appear in the
output identical to the parsed input rows; within a selected row only
fields named by some operation change; and a change record is emitted
exactly for writes whose old value differed, each carrying an operation's
field and value. -/
theorem c3_replay_frame (ops : List ReplaceOperation)
    (srows : List SearchResultRow) (rows : List Row)
    (headers : List String) (row : Row) :
    ((replayRows headers ops (rowIdxSet srows) 0 rows).1.length = rows.length)
    ∧ (∀ (j : Nat) (r : Row), rows[j]? = some r →
        (j : Int) ∉ rowIdxSet srows →
        ((replayRows headers ops (rowIdxSet srows) 0 rows).1)[j]? = some r)
    ∧ (∀ (j : Nat) (r : Row), rows[j]? = some r →
        (j : Int) ∈ rowIdxSet srows →
        ((replayRows headers ops (rowIdxSet srows) 0 rows).1)[j]?
          = some (replayOps headers ops r).1)
    ∧ (∀ g : String, g ∉ ops.map (fun op => op.field) →
        rowGet (replayOps headers ops row).1 g = rowGet row g)
    ∧ (∀ j : Nat, (j : Int) ∈ rowIdxSet srows
        ↔ ∃ sr ∈ srows, (j : Int) = sr.rowIndex - 1)
    ∧ (∀ c ∈ (replayOps headers ops row).2,
        c.oldValue ≠ c.newValue
        ∧ ∃ op ∈ ops, c.field = op.field ∧ c.newValue = op.value) := by
  refine ⟨replayRows_length headers ops (rowIdxSet srows) 0 rows, ?_, ?_,
    replayOps_preserves headers ops row, ?_,
    replayOps_records headers ops row⟩
  · intro j r hj hc
    rw [replayRows_get headers ops (rowIdxSet srows) 0 j rows, hj]
    simp [hc]
  · intro j r hj hc
    rw [replayRows_get headers ops (rowIdxSet srows) 0 j rows, hj]
    simp [hc]
  · intro j
    simp [rowIdxSet, eq_comm]

/-- C3 witness: the frame theorem applied at a concrete input — the search
result retains row index 2 only, so of the two parsed rows only offset 1
is rewritten and offset 0 passes through unchanged. -/
theorem c3_witness :
    ((replayRows ["a"] [⟨"a", "y"⟩] (rowIdxSet [⟨2, []⟩]) 0
        [[("a", "x")], [("a", "z")]]).1)[0]? = some [("a", "x")]
    ∧ ((replayRows ["a"] [⟨"a", "y"⟩] (rowIdxSet [⟨2, []⟩]) 0
        [[("a", "x")], [("a", "z")]]).1)[1]?
        = some (replayOps ["a"] [⟨"a", "y"⟩] [("a", "z")]).1 := by
  have h := c3_replay_frame [⟨"a", "y"⟩] [⟨2, []⟩]
    [[("a", "x")], [("a", "z")]] ["a"] []
  exact ⟨h.2.1 0 [("a", "x")] (by decide) (by decide),
    h.2.2.1 1 [("a", "z")] (by decide) (by decide)⟩

/-! ### Replay error handling and processed-file counting (claim C4) -/

/-- C4: a replay file with an operation naming a missing field is aborted
with an error listing exactly the missing field names (and produces
nothing); a successfully scanned replay file produces an artifact and
counts as processed exactly when some replacement changed a value — unlike
the simple and advanced pipelines, where every scanned file counts. -/
theorem c4_replay_error_and_counting (ops : List ReplaceOperation)
    (srows : List SearchResultRow) (rows : List Row)
    (test : String → Bool) (sel : List String) (som : Bool)
    (rt' : Option String) (rtA : RegexTest) (cfg : AdvancedSearchConfig)
    (rtf rv : Option String) :
    ((∃ op ∈ ops, op.field ∉ headersOf rows) →
      processReplayFile ops srows rows
        = .error ((ops.map (fun op => op.field)).filter
            (fun f => !(headersOf rows).contains f))
      ∧ ((ops.map (fun op => op.field)).filter
            (fun f => !(headersOf rows).contains f)) ≠ [])
    ∧ (∀ r : ReplayOk, processReplayFile ops srows rows = .ok r →
        r.artifact = decide (0 < r.reps)
        ∧ r.processedInc = (if 0 < r.reps then 1 else 0)
        ∧ ∀ op ∈ ops, op.field ∈ headersOf rows)
    ∧ ((processSimpleFile test sel som rt' rows).processedInc = 1)
    ∧ ((processAdvancedFile rtA cfg rtf rv som rows).processedInc = 1) := by
  refine ⟨fun h => ?_, fun r hr => ?_, rfl, rfl⟩
  · obtain ⟨op, hop, hnc⟩ := h
    have hmem : op.field ∈ (ops.map (fun o => o.field)).filter
        (fun f => !(headersOf rows).contains f) := by
      refine List.mem_filter.mpr ⟨List.mem_map_of_mem _ hop, ?_⟩
      simpa using hnc
    have hne : ((ops.map (fun o => o.field)).filter
        (fun f => !(headersOf rows).contains f)) ≠ [] := by
      intro hnil
      rw [hnil] at hmem
      exact (List.not_mem_nil _) hmem
    refine ⟨?_, hne⟩
    unfold processReplayFile
    rw [if_neg (fun hemp => hne (List.isEmpty_iff.mp hemp))]
  · unfold processReplayFile at hr
    by_cases hemp : ((ops.map (fun op => op.field)).filter
        (fun f => !(headersOf rows).contains f)).isEmpty = true
    · rw [if_pos hemp] at hr
      injection hr with hr'
      subst hr'
      refine ⟨rfl, rfl, fun op hop => ?_⟩
      have hnil := List.isEmpty_iff.mp hemp
      have h2 := (List.filter_eq_nil_iff.mp hnil) op.field
        (List.mem_map_of_mem _ hop)
      simpa using h2
    · rw [if_neg hemp] at hr
      simp at hr

/-- C4 witness (Scenario D): an operation on the missing field `status`
aborts the file with an error naming `status`, while a scanned
simple-mode file counts as processed regardless of replacements. -/
theorem c4_witness :
    processReplayFile [⟨"status", "closed"⟩] [⟨2, []⟩]
        [[("name", "a")], [("name", "b")]]
      = .error ["status"]
    ∧ (processSimpleFile (fun _ => false) [] false none [rowAx]).processedInc
        = 1 := by
  have h := c4_replay_error_and_counting [⟨"status", "closed"⟩] [⟨2, []⟩]
    [[("name", "a")], [("name", "b")]] (fun _ => false) [] false none rtNone
    blankCondConfig none none
  refine ⟨?_, h.2.2.1⟩
  have h1 := (h.1 (by decide)).1
  rw [h1]
  rfl

/-! ### Missing replace fields across paths (claim C8) -/

theorem scanAdvancedRow_target_missing (rtA : RegexTest)
    (cfg : AdvancedSearchConfig) (headers : List String) (row : Row)
    (t v : String) (hh : t ∉ headers) :
    (scanAdvancedRow rtA cfg (some t) (some v) headers row).outRow = row
    ∧ (scanAdvancedRow rtA cfg (some t) (some v) headers row).repCount = 0 := by
  unfold scanAdvancedRow
  cases hm : (rowMatchesAdvanced rtA row headers cfg).1 <;> simp [hm, hh]

theorem processAdvancedRows_target_missing_reps (rtA : RegexTest)
    (cfg : AdvancedSearchConfig) (t v : String) (som : Bool)
    (headers : List String) (hh : t ∉ headers) :
    ∀ rows : List Row,
      (processAdvancedRows rtA cfg (some t) (some v) som headers rows).2.2 = 0
  | [] => rfl
  | row :: rest => by
    have h0 := (scanAdvancedRow_target_missing rtA cfg headers row t v hh).2
    by_cases hm :
        (scanAdvancedRow rtA cfg (some t) (some v) headers row).matched = true <;>
      simp [processAdvancedRows, hm, h0,
        processAdvancedRows_target_missing_reps rtA cfg t v som headers hh rest]

/-- The replay batch: every file input is handed to the per-file replay
independently, in order. -/
def processReplayBatch (ops : List ReplaceOperation)
    (fileInputs : List (List SearchResultRow × List Row)) :
    List (Except (List String) ReplayOk) :=
  fileInputs.map (fun fi => processReplayFile ops fi.1 fi.2)

/-- C8 (amended): in the advanced targeted path an operation whose field is
absent from a file's headers is silently tolerated for that file — the row
is not written and the whole file applies zero replacements, with no
error. In the replay path, by contrast, an operation naming a missing
field aborts that file with a non-empty error before any write — a failure
of that file, though not of the batch, whose files are processed
independently. -/
theorem c8_missing_field_tolerance (rtA : RegexTest)
    (cfg : AdvancedSearchConfig) (headers : List String) (row : Row)
    (t v : String) (rows : List Row) (som : Bool) (hh : t ∉ headers)
    (ops : List ReplaceOperation) (srows : List SearchResultRow)
    (hmiss : ∃ op ∈ ops, op.field ∉ headersOf rows)
    (fi1 fi2 : List SearchResultRow × List Row) :
    ((scanAdvancedRow rtA cfg (some t) (some v) headers row).outRow = row)
    ∧ ((scanAdvancedRow rtA cfg (some t) (some v) headers row).repCount = 0)
    ∧ ((processAdvancedRows rtA cfg (some t) (some v) som headers rows).2.2 = 0)
    ∧ (processReplayFile ops srows rows
        = .error ((ops.map (fun op => op.field)).filter
            (fun f => !(headersOf rows).contains f))
      ∧ ((ops.map (fun op => op.field)).filter
            (fun f => !(headersOf rows).contains f)) ≠ [])
    ∧ (processReplayBatch ops [fi1, fi2]
        = [processReplayFile ops fi1.1 fi1.2,
           processReplayFile ops fi2.1 fi2.2]) := by
  refine ⟨(scanAdvancedRow_target_missing rtA cfg headers row t v hh).1,
    (scanAdvancedRow_target_missing rtA cfg headers row t v hh).2,
    processAdvancedRows_target_missing_reps rtA cfg t v som headers hh rows,
    ?_, rfl⟩
  obtain ⟨op, hop, hnc⟩ := hmiss
  have hmem : op.field ∈ (ops.map (fun o => o.field)).filter
      (fun f => !(headersOf rows).contains f) := by
    refine List.mem_filter.mpr ⟨List.mem_map_of_mem _ hop, ?_⟩
    simpa using hnc
  have hne : ((ops.map (fun o => o.field)).filter
      (fun f => !(headersOf rows).contains f)) ≠ [] := by
    intro hnil
    rw [hnil] at hmem
    exact (List.not_mem_nil _) hmem
  refine ⟨?_, hne⟩
  unfold processReplayFile
  rw [if_neg (fun hemp => hne (List.isEmpty_iff.mp hemp))]

/-- C8 witness: the tolerance theorem applied at a concrete input — a
missing target `city` in the advanced path leaves the row untouched with
zero replacements for the file. -/
theorem c8_witness :
    (scanAdvancedRow rtNone cfgStateNY (some "city") (some "LA") ["state"]
        [("state", "NY")]).outRow = [("state", "NY")]
    ∧ (processAdvancedRows rtNone cfgStateNY (some "city") (some "LA") false
        ["state"] [[("state", "NY")]]).2.2 = 0 := by
  have h := c8_missing_field_tolerance rtNone cfgStateNY ["state"]
    [("state", "NY")] "city" "LA" [[("state", "NY")]] false (by decide)
    [⟨"status", "closed"⟩] [⟨1, []⟩] (by decide) ([], []) ([], [])
  exact ⟨h.1, h.2.2.1⟩

/-- C8 counterexample: in the replay path an operation naming the missing
field `status` is not silently skipped — the file is aborted with an error
naming it, contradicting the per-file tolerance stated for the replay
path. -/
theorem c8_counterexample :
    processReplayFile [⟨"status", "closed"⟩] [⟨1, []⟩] [[("name", "a")]]
      = .error ["status"] := rfl

/-! ### End-of-batch download resolution (claim C9) -/

/-- C9: with more than one produced artifact and a successful bundling,
the batch completes with `isZip = true` and a download locator for the
archive, which is handed exactly the produced artifacts' names; with
exactly one artifact the download locator is that artifact's own path and
`isZip = false`; a bundling failure still yields a complete result, with
no download available; and under non-empty artifact paths the produced set
is exactly the records with a non-null `newPath`. -/
theorem c9_batch_download (outputFiles : List OutputFileRecord)
    (zip : List String → Option String) (mkUrl : String → String)
    (zp : String) :
    ((filesWithOutput outputFiles).length > 1 →
      zip (zipEntryNames outputFiles) = some zp →
      finishBatch outputFiles zip mkUrl
        = (some (mkUrl zp), true, some (zipEntryNames outputFiles)))
    ∧ ((filesWithOutput outputFiles).length > 1 →
      zip (zipEntryNames outputFiles) = none →
      (finishBatch outputFiles zip mkUrl).1 = none)
    ∧ ((filesWithOutput outputFiles).length = 1 →
      finishBatch outputFiles zip mkUrl
        = (((filesWithOutput outputFiles).headD ⟨"", none⟩).newPath,
           false, none))
    ∧ (zipEntryNames outputFiles
        = (filesWithOutput outputFiles).map
            (fun f => basename (f.newPath.getD "")))
    ∧ ((∀ f ∈ outputFiles, f.newPath ≠ some "") →
        filesWithOutput outputFiles
          = outputFiles.filter (fun f => f.newPath.isSome)) := by
  refine ⟨fun h1 hz => ?_, fun h1 hz => ?_, fun h1 => ?_, rfl, fun hne => ?_⟩
  · unfold finishBatch
    rw [if_pos h1, hz]
  · unfold finishBatch
    rw [if_pos h1, hz]
  · have h2 : ¬ (filesWithOutput outputFiles).length > 1 := by omega
    have h3 : ((filesWithOutput outputFiles).length == 1) = true := by
      simp [h1]
    unfold finishBatch
    rw [if_neg h2, if_pos h3]
  · unfold filesWithOutput
    refine List.filter_congr (fun f hf => ?_)
    cases hnp : f.newPath with
    | none => simp [jsTruthy]
    | some s =>
      have : s ≠ "" := by
        intro hs
        exact hne f hf (by rw [hnp, hs])
      simp [jsTruthy, this]

/-- A two-artifact batch record set. -/
def outputFiles2 : List OutputFileRecord :=
  [⟨"/a.csv", some "/api/download?file=a_replaced.csv"⟩,
   ⟨"/b.csv", some "/api/download?file=b_replaced.csv"⟩]

/-- C9 witness: the download-resolution theorem applied to a two-artifact
batch with a successful bundler. -/
theorem c9_witness :
    finishBatch outputFiles2 (fun _ => some "processed_1.zip")
        (fun p => "/api/download?file=" ++ p)
      = (some "/api/download?file=processed_1.zip", true,
         some ["download?file=a_replaced.csv", "download?file=b_replaced.csv"]) := by
  have h := (c9_batch_download outputFiles2 (fun _ => some "processed_1.zip")
    (fun p => "/api/download?file=" ++ p) "processed_1.zip").1
    (by decide) rfl
  rw [h]
  decide

/-! ### Advanced replace with a missing target field (claim C10) -/

theorem scanAdvancedRow_target_missing_records (rtA : RegexTest)
    (cfg : AdvancedSearchConfig) (headers : List String) (row : Row)
    (t v : String) (hh : t ∉ headers) :
    ∀ c ∈ (scanAdvancedRow rtA cfg (some t) (some v) headers row).records,
      c.oldValue = c.newValue := by
  intro c hc
  unfold scanAdvancedRow at hc
  cases hm : (rowMatchesAdvanced rtA row headers cfg).1
  · simp [hm] at hc
  · simp only [hm, Bool.not_true, Bool.false_eq_true, if_false] at hc
    rw [if_neg (by simp [hh])] at hc
    simp only [List.mem_map] at hc
    obtain ⟨f, _, hf⟩ := hc
    rw [← hf]

theorem processAdvancedRows_target_missing_id (rtA : RegexTest)
    (cfg : AdvancedSearchConfig) (t v : String) (headers : List String)
    (hh : t ∉ headers) :
    ∀ rows : List Row,
      (processAdvancedRows rtA cfg (some t) (some v) false headers rows).1
        = rows
  | [] => rfl
  | row :: rest => by
    have h0 := (scanAdvancedRow_target_missing rtA cfg headers row t v hh).1
    by_cases hm :
        (scanAdvancedRow rtA cfg (some t) (some v) headers row).matched = true <;>
      simp [processAdvancedRows, hm, h0,
        processAdvancedRows_target_missing_id rtA cfg t v headers hh rest]

/-- C10: in advanced replace mode (non-empty target field, defined value),
a file whose headers lack the target field applies zero replacements and
leaves every row unchanged — matched rows yield only attribution records
with old value equal to new value — yet, the request being in replace
mode, the file is still serialized and persisted (non-null `newPath`, an
output artifact despite zero replacements), completes without error, and
counts as processed. -/
theorem c10_missing_target_artifact (rtA : RegexTest)
    (cfg : AdvancedSearchConfig) (t v : String) (rows : List Row)
    (som : Bool) (ht : t ≠ "") (hh : t ∉ headersOf rows) :
    ((processAdvancedFile rtA cfg (some t) (some v) som rows).fileReplacements
        = 0)
    ∧ ((processAdvancedFile rtA cfg (some t) (some v) som rows).artifact = true)
    ∧ ((processAdvancedFile rtA cfg (some t) (some v) som rows).processedInc = 1)
    ∧ ((processAdvancedFile rtA cfg (some t) (some v) false rows).processedRows
        = rows)
    ∧ (∀ row : Row,
        ∀ c ∈ (scanAdvancedRow rtA cfg (some t) (some v) (headersOf rows)
            row).records,
          c.oldValue = c.newValue) := by
  refine ⟨processAdvancedRows_target_missing_reps rtA cfg t v som
      (headersOf rows) hh rows, ?_, rfl,
    processAdvancedRows_target_missing_id rtA cfg t v (headersOf rows) hh rows,
    fun row =>
      scanAdvancedRow_target_missing_records rtA cfg (headersOf rows) row t v hh⟩
  show advancedIsReplaceMode (some t) (some v) = true
  simp [advancedIsReplaceMode, jsTruthy, ht]

/-- C10 witness: the missing-target theorem applied at a concrete input —
target `city` absent from the headers, zero replacements, artifact still
produced. -/
theorem c10_witness :
    (processAdvancedFile rtNone cfgStateNY (some "city") (some "LA") false
        [[("state", "NY")]]).fileReplacements = 0
    ∧ (processAdvancedFile rtNone cfgStateNY (some "city") (some "LA") false
        [[("state", "NY")]]).artifact = true
    ∧ (processAdvancedFile rtNone cfgStateNY (some "city") (some "LA") false
        [[("state", "NY")]]).processedRows = [[("state", "NY")]] := by
  have h := c10_missing_target_artifact rtNone cfgStateNY "city" "LA"
    [[("state", "NY")]] false (by decide) (by decide)
  exact ⟨h.1, h.2.1, h.2.2.2.1⟩

end BulkCsv
